import Mathlib

/-!
Shallow embedding of `pyshacl/extras/js/constraint.py`.

RDF terms are modelled by `RDFNode`; dynamically-typed Python/JS values
flowing out of the script engine are modelled by `PyVal`.  The shapes graph
is a list of triples with an `objects` accessor mirroring
`rdflib.Graph.objects`.  Fallible constructors return `Except`.
-/

/-- An RDF term: IRI, blank node, or literal (lexical form plus optional
datatype IRI).  `rdflib` literals compare by lexical form and datatype. -/
inductive RDFNode where
  | iri (s : String)
  | bnode (s : String)
  | lit (lex : String) (dt : Option String)
deriving DecidableEq, Repr

/-- `isinstance(x, Literal)` on an RDF term. -/
def RDFNode.isLiteral : RDFNode → Bool
  | .lit _ _ => true
  | _ => false

/-- `str(term)` on an RDF term: for a literal this is its lexical form
(`rdflib.Literal` subclasses `str`). -/
def RDFNode.toStr : RDFNode → String
  | .iri s => s
  | .bnode s => s
  | .lit lex _ => lex

/-- A dynamically-typed Python value as produced by the JS engine bridge:
booleans, strings, records (dicts with string keys), lists, `None`
(JS `null` marshals to Python `None`), RDF terms, or any other opaque
Python object (indexed by a natural number). -/
inductive PyVal where
  | pybool (b : Bool)
  | pystr (s : String)
  | pydict (entries : List (String × PyVal))
  | pylist (elems : List PyVal)
  | pynull
  | pynode (n : RDFNode)
  | pyother (k : Nat)

/-- First-match association-list lookup: the model of reading a key out of
a Python dict (whose keys are distinct). -/
def dictLookup {κ α : Type} [DecidableEq κ] : List (κ × α) → κ → Option α
  | [], _ => none
  | (k, x) :: rest, key => if k = key then some x else dictLookup rest key

/-- `d.get(key, None)` followed by the `is None` convention used throughout
the source: a key bound to `None`/JS-`null` is indistinguishable from an
absent key, so both give `none`. -/
def pyGet (d : List (String × PyVal)) (key : String) : Option PyVal :=
  match dictLookup d key with
  | some PyVal.pynull => none
  | r => r

/-- Python truthiness of an RDF term: `URIRef`, `BNode` and `Literal` all
subclass `str`, so truthiness is non-emptiness of the string form. -/
def RDFNode.truthy : RDFNode → Bool
  | .iri s => !s.isEmpty
  | .bnode s => !s.isEmpty
  | .lit lex _ => !lex.isEmpty

/-- Python truthiness of a dynamically-typed value. -/
def pyTruthy : PyVal → Bool
  | .pybool b => b
  | .pystr s => !s.isEmpty
  | .pydict d => !d.isEmpty
  | .pylist l => !l.isEmpty
  | .pynull => false
  | .pynode n => n.truthy
  | .pyother _ => true

/-- Truthiness of an optional value, `none` standing for Python `None`. -/
def optTruthy : Option PyVal → Bool
  | none => false
  | some x => pyTruthy x

/-- One validation-result record, i.e. one call to `make_v_result`:
the focus node argument, the `value_node=` keyword (Python `None` when
absent), the `result_path=` keyword, and the `extra_messages=` list
(messages are stored before their wrapping into `Literal`s). -/
structure VResult where
  focus : PyVal
  value_node : Option PyVal
  result_path : Option PyVal
  extra_messages : List PyVal

/-- The body of the per-element `for r in res` loop of
`JSConstraint._evaluate_js_exe` (lines 175-190): the reports one list
element `r` contributes for the pair `(f, v)`.  Elements that are not a
failing bool, a string, or a dict contribute nothing. -/
def evalListElem (is_property_shape : Bool) (f v : RDFNode) (r : PyVal) : List VResult :=
  match r with
  | .pybool b => if b then [] else [⟨.pynode f, some (.pynode v), none, []⟩]
  | .pystr s => [⟨.pynode f, some (.pynode v), none, [.pystr s]⟩]
  | .pydict d =>
      let val := (pyGet d "value").getD (.pynode v)
      let path := if is_property_shape then none else pyGet d "path"
      let msgs := match pyGet d "message" with
        | some m => [m]
        | none => []
      [⟨.pynode f, some val, path, msgs⟩]
  | _ => []

/-- The classification of one raw script result `res` for one
`(focus, value)` pair in `JSConstraint._evaluate_js_exe` (lines 151-194):
returns the pair's `failed` flag and its reports.  In the list branch the
source sets `failed = True` unconditionally for every element before
dispatching on its type, so a non-empty list always sets `failed`. -/
def evalPair (is_property_shape : Bool) (f v : RDFNode) (res : PyVal) : Bool × List VResult :=
  match res with
  | .pybool b =>
      if !b then (true, [⟨.pynode f, some (.pynode v), none, []⟩]) else (false, [])
  | .pystr s => (true, [⟨.pynode f, some (.pynode v), none, [.pystr s]⟩])
  | .pydict d =>
      let val := (pyGet d "value").getD (.pynode v)
      let path := if is_property_shape then none else pyGet d "path"
      let msgs := match pyGet d "message" with
        | some m => [m]
        | none => []
      (true, [⟨.pynode f, some val, path, msgs⟩])
  | .pylist rs => (!rs.isEmpty, rs.flatMap (evalListElem is_property_shape f v))
  | _ => (false, [])

/-- `JSConstraint._evaluate_js_exe` over the whole focus→values dict:
folds the per-pair outcomes, or-ing the non-conformance flags and
concatenating reports; `exe f v` stands for `js_exe.execute(data_graph, f, v)`. -/
def evaluate_js_exe (is_property_shape : Bool) (exe : RDFNode → RDFNode → PyVal)
    : List (RDFNode × List RDFNode) → Bool × List VResult
  | [] => (false, [])
  | (f, vns) :: rest =>
      let pairRes := vns.foldl
        (fun acc v =>
          let fr := evalPair is_property_shape f v (exe f v)
          (acc.1 || fr.1, acc.2 ++ fr.2))
        (false, [])
      let restRes := evaluate_js_exe is_property_shape exe rest
      (pairRes.1 || restRes.1, pairRes.2 ++ restRes.2)

/-- Helper: a key bound to `None`/JS-`null` reads back as absent through
`d.get(key, None)`-plus-`is None`. -/
theorem pyGet_of_null {d : List (String × PyVal)} {k : String}
    (h : dictLookup d k = some .pynull) : pyGet d k = none := by
  unfold pyGet; rw [h]

/-- Helper: a key bound to a non-null value reads back as that value. -/
theorem pyGet_of_some {d : List (String × PyVal)} {k : String} {x : PyVal}
    (h : dictLookup d k = some x) (hx : x ≠ .pynull) : pyGet d k = some x := by
  unfold pyGet
  rw [h]
  cases x <;> simp_all

/-- Claim C1: scalar script results for one (focus, value) pair are
classified as: `false` gives exactly one failing report on the original
value node; `true` gives none; a string `s` gives one failing report with
extra message `s`; a dict gives one failing report whose value node is the
dict's `value` entry when one (non-null) is present, else the original
value node, whose result path is the dict's `path` entry only for
non-property shapes, and whose messages are the dict's `message` entry when
present; any other non-list result gives no report and counts as passing. -/
theorem JSConstraint_scalar_result_classification (ps : Bool) (f v : RDFNode) :
    (evalPair ps f v (.pybool false) = (true, [⟨.pynode f, some (.pynode v), none, []⟩]))
    ∧ (evalPair ps f v (.pybool true) = (false, []))
    ∧ (∀ s : String,
        evalPair ps f v (.pystr s) = (true, [⟨.pynode f, some (.pynode v), none, [.pystr s]⟩]))
    ∧ (∀ d : List (String × PyVal), ∃ r : VResult,
        evalPair ps f v (.pydict d) = (true, [r])
        ∧ r.focus = .pynode f
        ∧ (∀ x, pyGet d "value" = some x → r.value_node = some x)
        ∧ (pyGet d "value" = none → r.value_node = some (.pynode v))
        ∧ (ps = true → r.result_path = none)
        ∧ (ps = false → r.result_path = pyGet d "path")
        ∧ (∀ m, pyGet d "message" = some m → r.extra_messages = [m])
        ∧ (pyGet d "message" = none → r.extra_messages = []))
    ∧ (evalPair ps f v .pynull = (false, []))
    ∧ (∀ n, evalPair ps f v (.pynode n) = (false, []))
    ∧ (∀ k, evalPair ps f v (.pyother k) = (false, [])) := by
  refine ⟨rfl, rfl, fun s => rfl, fun d => ?_, rfl, fun n => rfl, fun k => rfl⟩
  refine ⟨⟨.pynode f, some ((pyGet d "value").getD (.pynode v)),
          if ps then none else pyGet d "path",
          match pyGet d "message" with
          | some m => [m]
          | none => []⟩, rfl, rfl, ?_, ?_, ?_, ?_, ?_, ?_⟩
  · intro x hx; simp [hx]
  · intro hx; simp [hx]
  · intro hps; simp [hps]
  · intro hps; simp [hps]
  · intro m hm; simp [hm]
  · intro hm; simp [hm]

/-- Witness for C1: concrete dict result with `value` and `message` keys. -/
theorem JSConstraint_scalar_result_classification_witness :
    ∃ r : VResult,
      evalPair false (.iri "f") (.iri "v")
        (.pydict [("value", .pystr "X"), ("message", .pystr "m")]) = (true, [r])
      ∧ r.value_node = some (.pystr "X")
      ∧ r.result_path = none
      ∧ r.extra_messages = [.pystr "m"] := by
  obtain ⟨r, h1, _h2, h3, _h4, _h5, h6, h7, _h8⟩ :=
    (JSConstraint_scalar_result_classification false (.iri "f") (.iri "v")).2.2.2.1
      [("value", .pystr "X"), ("message", .pystr "m")]
  exact ⟨r, h1, h3 _ rfl, (h6 rfl).trans rfl, h7 _ rfl⟩

/-- Counterexample for C2: the list `[true]` contains no non-passing
element, yet the pair is counted non-conformant (`failed = true`) with no
reports, because the source sets `failed = True` for every list element
before dispatching on it. -/
theorem JSConstraint_list_true_counterexample :
    evalPair false (.iri "f") (.iri "v") (.pylist [.pybool true]) = (true, []) := rfl

/-- Claim C2 (amended): each bool/string/dict list element produces reports
by the same rules as the corresponding scalar result, but failure is
triggered unconditionally per element, so the pair is non-conformant iff
the list is non-empty — even when every element passes; the list
`[false, true, "m"]` yields exactly two failing reports. -/
theorem JSConstraint_list_result_classification (ps : Bool) (f v : RDFNode)
    (rs : List PyVal) :
    ((evalPair ps f v (.pylist rs)).1 = !rs.isEmpty)
    ∧ ((evalPair ps f v (.pylist rs)).2 = rs.flatMap (evalListElem ps f v))
    ∧ (∀ r : PyVal,
        ((∃ b, r = .pybool b) ∨ (∃ s, r = .pystr s) ∨ (∃ d, r = .pydict d)) →
        evalListElem ps f v r = (evalPair ps f v r).2)
    ∧ (evalPair ps f v (.pylist [.pybool false, .pybool true, .pystr "m"]) =
        (true, [⟨.pynode f, some (.pynode v), none, []⟩,
                ⟨.pynode f, some (.pynode v), none, [.pystr "m"]⟩])) := by
  refine ⟨rfl, rfl, ?_, rfl⟩
  rintro r (⟨b, rfl⟩ | ⟨s, rfl⟩ | ⟨d, rfl⟩)
  · cases b <;> rfl
  · rfl
  · rfl

/-- Witness for C2 (amended): a passing boolean list element is classified
exactly as the scalar `true` result (no reports). -/
theorem JSConstraint_list_result_classification_witness :
    evalListElem false (.iri "f") (.iri "v") (.pybool true) =
      (evalPair false (.iri "f") (.iri "v") (.pybool true)).2 :=
  (JSConstraint_list_result_classification false (.iri "f") (.iri "v") []).2.2.1
    (.pybool true) (Or.inl ⟨true, rfl⟩)

/-- Claim C10: a dict result whose `value` key maps to `None`/JS-`null` is
treated as if the key were absent — the report's value node falls back to
the original value node — and a `message` key mapping to `None` contributes
no message; both at top level and for dict elements inside a list. -/
theorem JSConstraint_record_null_key_fallback (ps : Bool) (f v : RDFNode)
    (d : List (String × PyVal)) :
    (dictLookup d "value" = some .pynull →
      ∃ path msgs, evalPair ps f v (.pydict d) =
        (true, [⟨.pynode f, some (.pynode v), path, msgs⟩]))
    ∧ (dictLookup d "message" = some .pynull →
      ∃ r : VResult, evalPair ps f v (.pydict d) = (true, [r]) ∧ r.extra_messages = [])
    ∧ (dictLookup d "value" = some .pynull →
      ∃ path msgs, evalListElem ps f v (.pydict d) =
        [⟨.pynode f, some (.pynode v), path, msgs⟩])
    ∧ (dictLookup d "message" = some .pynull →
      ∃ r : VResult, evalListElem ps f v (.pydict d) = [r] ∧ r.extra_messages = []) := by
  refine ⟨fun h => ?_, fun h => ?_, fun h => ?_, fun h => ?_⟩
  · exact ⟨if ps then none else pyGet d "path",
      (match pyGet d "message" with | some m => [m] | none => []),
      by simp [evalPair, pyGet_of_null h]⟩
  · exact ⟨⟨.pynode f, some ((pyGet d "value").getD (.pynode v)),
      if ps then none else pyGet d "path", []⟩,
      by simp [evalPair, pyGet_of_null h], rfl⟩
  · exact ⟨if ps then none else pyGet d "path",
      (match pyGet d "message" with | some m => [m] | none => []),
      by simp [evalListElem, pyGet_of_null h]⟩
  · exact ⟨⟨.pynode f, some ((pyGet d "value").getD (.pynode v)),
      if ps then none else pyGet d "path", []⟩,
      by simp [evalListElem, pyGet_of_null h], rfl⟩

/-- Witness for C10: a concrete dict whose `value` and `message` keys both
map to `null`. -/
theorem JSConstraint_record_null_key_fallback_witness :
    ∃ path msgs, evalPair false (.iri "f") (.iri "v")
      (.pydict [("value", PyVal.pynull), ("message", PyVal.pynull)]) =
      (true, [⟨.pynode (.iri "f"), some (.pynode (.iri "v")), path, msgs⟩]) :=
  (JSConstraint_record_null_key_fallback false (.iri "f") (.iri "v")
    [("value", PyVal.pynull), ("message", PyVal.pynull)]).1 rfl

/-- The load-time errors raised as `ConstraintLoadError` in the source,
one constructor per raise site. -/
inductive LoadErr where
  | fnNameMissing
  | fnNameMultiple
  | fnNameNotLiteral
  | jsLibraryLiteral
  | jsLibraryURLNotLiteral
  | noJsDecl
  | cannotSelectValidator
  | messageNotString
deriving DecidableEq

/-- The runtime errors raised in the source: `ReportableRuntimeError` for
parameter binding, and Python's `KeyError` for a missing dict key. -/
inductive RuntimeErr where
  | reservedParamName (name : String)
  | missingMandatoryParam (path : RDFNode)
  | keyError (key : String)
deriving DecidableEq

/-- `JSConstraintComponent.make_validator_for_shape` (lines 307-330):
picks a property-scoped validator for a property shape when one exists,
else a node-scoped one for a node shape, else a generic one, else raises.
`next(iter(...))` on the stored list is its head. -/
def make_validator_for_shape {V : Type} (is_property_shape : Bool)
    (validators node_validators property_validators : List V) : Except LoadErr V :=
  if is_property_shape then
    match property_validators with
    | pv :: _ => .ok pv
    | [] =>
        match validators with
        | gv :: _ => .ok gv
        | [] => .error .cannotSelectValidator
  else
    match node_validators with
    | nv :: _ => .ok nv
    | [] =>
        match validators with
        | gv :: _ => .ok gv
        | [] => .error .cannotSelectValidator

/-- Claim C6: validator selection follows the fixed precedence
property-scoped (for property shapes), then node-scoped (for node shapes),
then generic, and raises when no variant applies; the precedence is
independent of the other validator lists. -/
theorem JSConstraintComponent_validator_selection {V : Type}
    (vs nvs pvs : List V) :
    (pvs ≠ [] → ∃ x, x ∈ pvs ∧ make_validator_for_shape true vs nvs pvs = .ok x)
    ∧ (nvs ≠ [] → ∃ x, x ∈ nvs ∧ make_validator_for_shape false vs nvs pvs = .ok x)
    ∧ (pvs = [] → vs ≠ [] → ∃ x, x ∈ vs ∧ make_validator_for_shape true vs nvs pvs = .ok x)
    ∧ (nvs = [] → vs ≠ [] → ∃ x, x ∈ vs ∧ make_validator_for_shape false vs nvs pvs = .ok x)
    ∧ (pvs = [] → vs = [] →
        make_validator_for_shape true vs nvs pvs = .error .cannotSelectValidator)
    ∧ (nvs = [] → vs = [] →
        make_validator_for_shape false vs nvs pvs = .error .cannotSelectValidator) := by
  refine ⟨?_, ?_, ?_, ?_, ?_, ?_⟩
  · intro h
    cases pvs with
    | nil => exact absurd rfl h
    | cons p ps => exact ⟨p, List.mem_cons_self p ps, rfl⟩
  · intro h
    cases nvs with
    | nil => exact absurd rfl h
    | cons n ns => exact ⟨n, List.mem_cons_self n ns, rfl⟩
  · intro hp h
    subst hp
    cases vs with
    | nil => exact absurd rfl h
    | cons g gs => exact ⟨g, List.mem_cons_self g gs, rfl⟩
  · intro hn h
    subst hn
    cases vs with
    | nil => exact absurd rfl h
    | cons g gs => exact ⟨g, List.mem_cons_self g gs, rfl⟩
  · intro hp hv; subst hp; subst hv; rfl
  · intro hn hv; subst hn; subst hv; rfl

/-- Witness for C6: a property-shape consumer of a component with both a
property-scoped and a node-scoped validator gets the property-scoped one,
and a node-shape consumer the node-scoped one. -/
theorem JSConstraintComponent_validator_selection_witness :
    (∃ x, x ∈ [30] ∧ make_validator_for_shape true [10] [20] [30] = .ok x)
    ∧ (∃ x, x ∈ [20] ∧ make_validator_for_shape false [10] [20] [30] = .ok x) :=
  ⟨(JSConstraintComponent_validator_selection [10] [20] [30]).1 (by decide),
   (JSConstraintComponent_validator_selection [10] [20] [30]).2.1 (by decide)⟩

/-- A declared parameter of a custom constraint component: its local name,
its path predicate, and its optionality flag. -/
structure SPConstraintParam where
  localname : String
  path : RDFNode
  optional : Bool

/-- `BoundShapeJSValidatorComponent.invalid_parameter_names` (line 199). -/
def invalid_parameter_names : List String :=
  ["this", "shapesGraph", "currentShape", "path", "PATH", "value"]

/-- `BoundShapeJSValidatorComponent.bind_params` (lines 217-236):
`shapeObjects p` models `set(shape.objects(p.path()))` via `dedup`,
and `next(iter(...))` picks one element of that set (here its head).
The binding map is built in parameter order. -/
def bind_params (shapeObjects : RDFNode → List RDFNode) :
    List SPConstraintParam → Except RuntimeErr (List (String × RDFNode))
  | [] => .ok []
  | p :: ps =>
      if p.localname ∈ invalid_parameter_names then
        .error (.reservedParamName p.localname)
      else
        match (shapeObjects p.path).dedup with
        | [] =>
            if !p.optional then .error (.missingMandatoryParam p.path)
            else bind_params shapeObjects ps
        | x :: _ => (bind_params shapeObjects ps).map (fun rest => (p.localname, x) :: rest)

/-- Helper: everything `bind_params` guarantees about each declared
parameter when it returns a binding map. -/
theorem bind_params_ok_spec (so : RDFNode → List RDFNode)
    (ps : List SPConstraintParam) :
    ∀ m, bind_params so ps = .ok m →
      ∀ p ∈ ps, p.localname ∉ invalid_parameter_names
        ∧ (so p.path = [] → p.optional = true)
        ∧ (so p.path ≠ [] → ∃ x, x ∈ so p.path ∧ (p.localname, x) ∈ m) := by
  induction ps with
  | nil =>
      intro m _ p hp
      exact absurd hp (List.not_mem_nil p)
  | cons q qs ih =>
      intro m h p hp
      rw [bind_params] at h
      by_cases hres : q.localname ∈ invalid_parameter_names
      · rw [if_pos hres] at h
        simp at h
      · rw [if_neg hres] at h
        rcases hd : (so q.path).dedup with _ | ⟨x, t⟩
        · rw [hd] at h
          cases hopt : q.optional with
          | false => rw [hopt] at h; simp at h
          | true =>
              rw [hopt] at h
              simp only [Bool.not_true, Bool.false_eq_true, if_false] at h
              rcases List.mem_cons.mp hp with rfl | hp2
              · refine ⟨hres, fun _ => hopt, fun hne => absurd ?_ hne⟩
                rwa [List.dedup_eq_nil] at hd
              · exact ih m h p hp2
        · rw [hd] at h
          cases hrec : bind_params so qs with
          | error e => rw [hrec] at h; simp [Except.map] at h
          | ok m2 =>
              rw [hrec] at h
              simp only [Except.map, Except.ok.injEq] at h
              rcases List.mem_cons.mp hp with rfl | hp2
              · refine ⟨hres, ?_, ?_⟩
                · intro h0; rw [h0] at hd; simp at hd
                · intro _
                  refine ⟨x, ?_, ?_⟩
                  · exact List.mem_dedup.mp (hd ▸ List.mem_cons_self x t)
                  · rw [← h]; exact List.mem_cons_self _ _
              · obtain ⟨h1, h2, h3⟩ := ih m2 hrec p hp2
                refine ⟨h1, h2, fun hne => ?_⟩
                obtain ⟨y, hy1, hy2⟩ := h3 hne
                exact ⟨y, hy1, by rw [← h]; exact List.mem_cons_of_mem _ hy2⟩

/-- Helper: a parameter name all of whose declarations have zero shape
values stays absent from the binding map. -/
theorem bind_params_absent_key (so : RDFNode → List RDFNode)
    (ps : List SPConstraintParam) :
    ∀ m, bind_params so ps = .ok m →
      ∀ k, (∀ p ∈ ps, p.localname = k → so p.path = []) → dictLookup m k = none := by
  induction ps with
  | nil =>
      intro m h k _
      rw [bind_params] at h
      simp only [Except.ok.injEq] at h
      rw [← h]
      rfl
  | cons q qs ih =>
      intro m h k hk
      rw [bind_params] at h
      by_cases hres : q.localname ∈ invalid_parameter_names
      · rw [if_pos hres] at h; simp at h
      · rw [if_neg hres] at h
        rcases hd : (so q.path).dedup with _ | ⟨x, t⟩
        · rw [hd] at h
          cases hopt : q.optional with
          | false => rw [hopt] at h; simp at h
          | true =>
              rw [hopt] at h
              simp only [Bool.not_true, Bool.false_eq_true, if_false] at h
              exact ih m h k (fun p hp => hk p (List.mem_cons_of_mem q hp))
        · rw [hd] at h
          cases hrec : bind_params so qs with
          | error e => rw [hrec] at h; simp [Except.map] at h
          | ok m2 =>
              rw [hrec] at h
              simp only [Except.map, Except.ok.injEq] at h
              have hqk : q.localname ≠ k := by
                intro he
                have h0 := hk q (List.mem_cons_self q qs) he
                rw [h0] at hd
                simp at hd
              rw [← h, dictLookup, if_neg hqk]
              exact ih m2 hrec k (fun p hp => hk p (List.mem_cons_of_mem q hp))

/-- Claim C7: `bind_params` raises on a reserved parameter name regardless
of the shape's values, raises when a mandatory parameter has zero values on
the shape, leaves an optional zero-valued parameter absent from the binding
map, and otherwise binds the local name to one of the values present on the
shape. -/
theorem BoundShapeJSValidatorComponent_bind_params_spec
    (so : RDFNode → List RDFNode) (ps : List SPConstraintParam) :
    (∀ p ∈ ps, p.localname ∈ invalid_parameter_names →
      ∃ e, bind_params so ps = .error e)
    ∧ (∀ p ∈ ps, so p.path = [] → p.optional = false →
      ∃ e, bind_params so ps = .error e)
    ∧ (∀ m, bind_params so ps = .ok m →
      ∀ k, (∀ p ∈ ps, p.localname = k → so p.path = []) → dictLookup m k = none)
    ∧ (∀ m, bind_params so ps = .ok m →
      ∀ p ∈ ps, so p.path ≠ [] → ∃ x, x ∈ so p.path ∧ (p.localname, x) ∈ m) := by
  refine ⟨?_, ?_, bind_params_absent_key so ps, ?_⟩
  · intro p hp hres
    cases hb : bind_params so ps with
    | error e => exact ⟨e, rfl⟩
    | ok m => exact absurd hres (bind_params_ok_spec so ps m hb p hp).1
  · intro p hp hempty hmand
    cases hb : bind_params so ps with
    | error e => exact ⟨e, rfl⟩
    | ok m =>
        have := (bind_params_ok_spec so ps m hb p hp).2.1 hempty
        rw [hmand] at this
        exact absurd this (by simp)
  · intro m hb p hp hne
    exact (bind_params_ok_spec so ps m hb p hp).2.2 hne

/-- Witness for C7: a reserved name raises even on a shape carrying a
value for it; a mandatory parameter with no value raises; a successful
binding picks a value present on the shape. -/
theorem BoundShapeJSValidatorComponent_bind_params_spec_witness :
    (∃ e, bind_params (fun _ => [RDFNode.iri "a"])
      [⟨"value", RDFNode.iri "p1", false⟩] = .error e)
    ∧ (∃ e, bind_params (fun _ => ([] : List RDFNode))
      [⟨"minLength", RDFNode.iri "p1", false⟩] = .error e)
    ∧ (∃ x, x ∈ (fun (_ : RDFNode) => [RDFNode.iri "a"]) (RDFNode.iri "p1")
        ∧ ("minLength", x) ∈ [("minLength", RDFNode.iri "a")]) := by
  refine ⟨?_, ?_, ?_⟩
  · exact (BoundShapeJSValidatorComponent_bind_params_spec
      (fun _ => [RDFNode.iri "a"]) [⟨"value", RDFNode.iri "p1", false⟩]).1
      ⟨"value", RDFNode.iri "p1", false⟩ (List.mem_singleton.mpr rfl) (by decide)
  · exact (BoundShapeJSValidatorComponent_bind_params_spec
      (fun _ => ([] : List RDFNode)) [⟨"minLength", RDFNode.iri "p1", false⟩]).2.1
      ⟨"minLength", RDFNode.iri "p1", false⟩ (List.mem_singleton.mpr rfl) rfl rfl
  · exact (BoundShapeJSValidatorComponent_bind_params_spec
      (fun _ => [RDFNode.iri "a"]) [⟨"minLength", RDFNode.iri "p1", false⟩]).2.2.2
      [("minLength", RDFNode.iri "a")] rfl
      ⟨"minLength", RDFNode.iri "p1", false⟩ (List.mem_singleton.mpr rfl) (by simp)

/-- The process-wide `JSConstraintComponentValidator.validator_cache`
(line 333) together with instance allocation: entries map a
`(id(shapes_graph.graph), str(node))` key to an instance (identified by a
number), `nextId` is the next fresh instance identity, and `initCount`
counts how many times `__init__` ran past its `initialised` guard. -/
structure ValidatorCache where
  entries : List ((Nat × String) × Nat)
  nextId : Nat
  initCount : Nat

/-- The cache a process starts with. -/
def emptyValidatorCache : ValidatorCache := ⟨[], 0, 0⟩

/-- `JSConstraintComponentValidator.__new__` plus `__init__`
(lines 335-347): a cache hit returns the cached instance and its
`initialised` flag short-circuits `__init__`; a miss allocates a fresh
instance, caches it, and runs the initialisation once. -/
def validator_construct (c : ValidatorCache) (graph_id : Nat) (node : String) :
    ValidatorCache × Nat :=
  match dictLookup c.entries (graph_id, node) with
  | some inst => (c, inst)
  | none =>
      ({ entries := c.entries ++ [((graph_id, node), c.nextId)],
         nextId := c.nextId + 1,
         initCount := c.initCount + 1 }, c.nextId)

/-- Helper: appending a key not yet present makes lookup find it. -/
theorem dictLookup_append_fresh {κ α : Type} [DecidableEq κ]
    (l : List (κ × α)) (k : κ) (x : α) (h : dictLookup l k = none) :
    dictLookup (l ++ [(k, x)]) k = some x := by
  induction l with
  | nil => simp [dictLookup]
  | cons hd tl ih =>
      obtain ⟨k0, y⟩ := hd
      rw [dictLookup] at h
      by_cases hk : k0 = k
      · rw [if_pos hk] at h; simp at h
      · rw [if_neg hk] at h
        rw [List.cons_append, dictLookup, if_neg hk]
        exact ih h

/-- Claim C9: constructing a `JSConstraintComponentValidator` twice with
the same (shapes-graph identity, validator-node string) key returns the
identical cached instance without re-running initialisation; a different
shapes-graph identity yields a distinct instance even for the same node. -/
theorem JSConstraintComponentValidator_cache_spec
    (c : ValidatorCache) (gid gid2 : Nat) (node : String) :
    ((validator_construct (validator_construct c gid node).1 gid node).2 =
      (validator_construct c gid node).2)
    ∧ ((validator_construct (validator_construct c gid node).1 gid node).1.initCount =
      (validator_construct c gid node).1.initCount)
    ∧ (gid ≠ gid2 →
      (validator_construct (validator_construct emptyValidatorCache gid node).1 gid2 node).2 ≠
        (validator_construct emptyValidatorCache gid node).2) := by
  refine ⟨?_, ?_, ?_⟩
  · cases h : dictLookup c.entries (gid, node) with
    | some inst => simp [validator_construct, h]
    | none => simp [validator_construct, h, dictLookup_append_fresh c.entries (gid, node) c.nextId h]
  · cases h : dictLookup c.entries (gid, node) with
    | some inst => simp [validator_construct, h]
    | none => simp [validator_construct, h, dictLookup_append_fresh c.entries (gid, node) c.nextId h]
  · intro hne
    have hk : ((gid, node) : Nat × String) ≠ (gid2, node) := by
      intro he
      exact hne (congrArg Prod.fst he)
    simp [validator_construct, emptyValidatorCache, dictLookup, hk]

/-- Witness for C9: graph identities 0 and 1 with the same node string. -/
theorem JSConstraintComponentValidator_cache_spec_witness :
    (validator_construct (validator_construct emptyValidatorCache 0 "v").1 1 "v").2 ≠
      (validator_construct emptyValidatorCache 0 "v").2 :=
  (JSConstraintComponentValidator_cache_spec emptyValidatorCache 0 1 "v").2.2 (by decide)

/-- One element of the violation set a custom validator returns: the
boolean `True` marker, a `(this, path, value)` tuple whose slots may be
Python `None`, or any other raw value used directly as a value node. -/
inductive JSViolation where
  | vbool (b : Bool)
  | vtriple (t p vv : Option PyVal)
  | vnode (x : PyVal)

/-- Python `x or y` for `t or f` on line 287: the left operand when it is
present and truthy, else the right operand. -/
def pyOrFocus (t : Option PyVal) (f : PyVal) : PyVal :=
  match t with
  | some x => if pyTruthy x then x else f
  | none => f

/-- The report built for one violation inside
`BoundShapeJSValidatorComponent.evaluate` (lines 274-290).  `result_val`
is the focus node for node shapes and `None` for property shapes; the
component's `extra_messages` is `self.messages or None` which is always
`None` because `self.messages` is initialised to `[]` and never filled. -/
def boundReport (is_property_shape : Bool) (f : RDFNode) (v : JSViolation) : VResult :=
  let result_val : Option PyVal := if is_property_shape then none else some (.pynode f)
  match v with
  | .vbool true => ⟨.pynode f, result_val, none, []⟩
  | .vbool false => ⟨.pynode f, some (.pybool false), none, []⟩
  | .vtriple t p vv =>
      ⟨pyOrFocus t (.pynode f),
       (match vv with
        | none => result_val
        | some x => some x),
       p, []⟩
  | .vnode x => ⟨.pynode f, some x, none, []⟩

/-- `BoundShapeJSValidatorComponent.evaluate` (lines 253-291): the shared
validator runs once per focus node on the whole value-node set, each
returned violation becomes one report, and the conformant flag is the
conjunction of per-focus emptiness of the violation set. -/
def bound_evaluate (is_property_shape : Bool)
    (validate : RDFNode → List RDFNode → List JSViolation) :
    List (RDFNode × List RDFNode) → Bool × List VResult
  | [] => (true, [])
  | (f, vns) :: rest =>
      let vios := validate f vns
      let restRes := bound_evaluate is_property_shape validate rest
      (vios.isEmpty && restRes.1, vios.map (boundReport is_property_shape f) ++ restRes.2)

/-- Counterexample for C8: a triple violation whose target override is
present but falsy (the empty-string literal) is NOT used as the report's
target — `t or f` falls back to the focus node — while the claim says a
present override target is always used. -/
theorem BoundShapeJSValidatorComponent_falsy_target_counterexample :
    bound_evaluate false
      (fun _ _ => [.vtriple (some (.pynode (.lit "" none))) none none])
      [(.iri "f", [])] =
      (false, [⟨.pynode (.iri "f"), some (.pynode (.iri "f")), none, []⟩]) := rfl

/-- Helper: `bound_evaluate` in closed form — one validator call per focus
node, one report per violation. -/
theorem bound_evaluate_eq (is_property_shape : Bool)
    (validate : RDFNode → List RDFNode → List JSViolation)
    (fv : List (RDFNode × List RDFNode)) :
    bound_evaluate is_property_shape validate fv =
      (fv.all (fun pr => (validate pr.1 pr.2).isEmpty),
       fv.flatMap (fun pr => (validate pr.1 pr.2).map (boundReport is_property_shape pr.1))) := by
  induction fv with
  | nil => rfl
  | cons pr rest ih =>
      obtain ⟨f, vns⟩ := pr
      rw [bound_evaluate, ih]
      rfl

/-- Claim C8 (amended): the validator is invoked once per focus node on
the whole value-node set; the default result value is the focus for node
shapes and `None` for property shapes; violation `True` yields one report
carrying the default value node; a triple violation yields one report
whose target is the override when it is present and truthy (a present but
falsy target falls back to the focus) and whose value defaults to the
computed default when the triple's value is `None`; any other violation is
the report's value node; the conformant flag is false iff some focus node
returned at least one violation. -/
theorem BoundShapeJSValidatorComponent_evaluate_spec (is_property_shape : Bool)
    (validate : RDFNode → List RDFNode → List JSViolation)
    (f : RDFNode) (fv : List (RDFNode × List RDFNode)) :
    (boundReport is_property_shape f (.vbool true) =
      ⟨.pynode f, if is_property_shape then none else some (.pynode f), none, []⟩)
    ∧ (∀ p, boundReport is_property_shape f (.vtriple none p none) =
      ⟨.pynode f, if is_property_shape then none else some (.pynode f), p, []⟩)
    ∧ (∀ t p x, pyTruthy t = true →
      boundReport is_property_shape f (.vtriple (some t) p (some x)) = ⟨t, some x, p, []⟩)
    ∧ (∀ t p x, pyTruthy t = false →
      boundReport is_property_shape f (.vtriple (some t) p (some x)) =
        ⟨.pynode f, some x, p, []⟩)
    ∧ (∀ x, boundReport is_property_shape f (.vnode x) = ⟨.pynode f, some x, none, []⟩)
    ∧ ((bound_evaluate is_property_shape validate fv).2 =
      fv.flatMap (fun pr => (validate pr.1 pr.2).map (boundReport is_property_shape pr.1)))
    ∧ ((bound_evaluate is_property_shape validate fv).1 = false ↔
      ∃ pr ∈ fv, validate pr.1 pr.2 ≠ []) := by
  refine ⟨rfl, fun p => rfl, ?_, ?_, fun x => rfl, ?_, ?_⟩
  · intro t p x ht
    simp [boundReport, pyOrFocus, ht]
  · intro t p x ht
    simp [boundReport, pyOrFocus, ht]
  · rw [bound_evaluate_eq]
  · rw [bound_evaluate_eq]
    simp [List.all_eq_true, List.isEmpty_iff]

/-- Witness for C8 (amended): a truthy target override is used as the
report target, with the explicit value override. -/
theorem BoundShapeJSValidatorComponent_evaluate_spec_witness :
    boundReport false (.iri "f")
      (.vtriple (some (.pystr "t")) (some (.pystr "pth")) (some (.pystr "x"))) =
      ⟨.pystr "t", some (.pystr "x"), some (.pystr "pth"), []⟩ :=
  (BoundShapeJSValidatorComponent_evaluate_spec false (fun _ _ => []) (.iri "f") []).2.2.1
    (.pystr "t") (some (.pystr "pth")) (.pystr "x") rfl

mutual

/-- Python structural `==` on dynamically-typed values, used by `set`
membership when accumulating violations. -/
def PyVal.beq : PyVal → PyVal → Bool
  | .pybool a, .pybool b => a == b
  | .pystr a, .pystr b => a == b
  | .pydict a, .pydict b => PyVal.beqEntries a b
  | .pylist a, .pylist b => PyVal.beqElems a b
  | .pynull, .pynull => true
  | .pynode a, .pynode b => a == b
  | .pyother a, .pyother b => a == b
  | _, _ => false

/-- Componentwise `==` on dict entry lists. -/
def PyVal.beqEntries : List (String × PyVal) → List (String × PyVal) → Bool
  | [], [] => true
  | (k, x) :: xs, (k2, y) :: ys => k == k2 && PyVal.beq x y && PyVal.beqEntries xs ys
  | _, _ => false

/-- Componentwise `==` on value lists. -/
def PyVal.beqElems : List PyVal → List PyVal → Bool
  | [], [] => true
  | x :: xs, y :: ys => PyVal.beq x y && PyVal.beqElems xs ys
  | _, _ => false

end

/-- Python `==` on optional values (`None` equal only to `None`). -/
def optPyBeq : Option PyVal → Option PyVal → Bool
  | none, none => true
  | some x, some y => PyVal.beq x y
  | _, _ => false

/-- Python `==` on the members of a violation set. -/
def JSViolation.beq : JSViolation → JSViolation → Bool
  | .vbool a, .vbool b => a == b
  | .vtriple t p v, .vtriple t2 p2 v2 => optPyBeq t t2 && optPyBeq p p2 && optPyBeq v v2
  | .vnode x, .vnode y => PyVal.beq x y
  | _, _ => false

/-- `violations.add(x)` on the Python set, modelled as an
insertion-ordered deduplicated list. -/
def addViolation (vs : List JSViolation) (v : JSViolation) : List JSViolation :=
  if vs.any (fun w => JSViolation.beq w v) then vs else vs ++ [v]

/-- The per-row body of `JSConstraintComponentValidator.validate`
(lines 385-409): read the `path`/`value`/`this` columns (a missing column
or one bound to `None` gives `None`), record a `(this, path, value)`
violation when any of the three is truthy, else record the generic `True`
violation when a `failure` column exists, else record nothing. -/
def rowViolations (vs : List JSViolation) (r : List (String × PyVal)) : List JSViolation :=
  let p := pyGet r "path"
  let v := pyGet r "value"
  let t := pyGet r "this"
  if optTruthy p || optTruthy v || optTruthy t then
    addViolation vs (.vtriple t p v)
  else
    match dictLookup r "failure" with
    | some _ => addViolation vs (.vbool true)
    | none => vs

/-- `JSConstraintComponentValidator.validate` (lines 363-410): merges the
bound parameter values with `new_bind_vals` (update semantics: the new
values win), then enters `for v in value_nodes` — whose body builds
`args = [v, bind_vals["maxLength"]]` (raising `KeyError` when no
`maxLength` binding exists), executes, returns `[]` on an empty result
table, and otherwise returns the row violations — and therefore finishes
during the FIRST iteration; with no value nodes it falls off the loop and
returns Python `None` (modelled as `Option.none`). -/
def jsComponentValidate
    (exe : RDFNode → PyVal → List (List (String × PyVal)))
    (value_nodes : List RDFNode)
    (param_bind_vals new_bind_vals : List (String × PyVal)) :
    Except RuntimeErr (Option (List JSViolation)) :=
  let bind_vals := new_bind_vals ++ param_bind_vals
  match value_nodes with
  | [] => .ok none
  | v :: _ =>
      match dictLookup bind_vals "maxLength" with
      | none => .error (.keyError "maxLength")
      | some ml =>
          let results := exe v ml
          if results.isEmpty then .ok (some [])
          else .ok (some (results.foldl rowViolations []))

/-- Claim C3 is a code bug; this theorem evaluates the embedding at the
failing inputs.  First: with two value nodes, where the script returns no
rows for the first value node and one `value`-column row for the second,
`validate` returns no violations at all — it returns from inside the first
loop iteration, so the second value node is never executed (the claim says
every value node is executed and its rows interpreted).  Second: the call
passes only the binding named `maxLength` as the extra positional
argument, and raises `KeyError` when the binding map lacks that name even
though other parameter bindings are present. -/
theorem JSConstraintComponentValidator_validate_bug :
    (jsComponentValidate
      (fun v _ => if v = RDFNode.iri "v2" then [[("value", PyVal.pystr "bad")]] else [])
      [RDFNode.iri "v1", RDFNode.iri "v2"]
      [("maxLength", PyVal.pystr "5")] [] = .ok (some []))
    ∧ (jsComponentValidate
      (fun _ _ => [[("value", PyVal.pystr "bad")]])
      [RDFNode.iri "v1"]
      [("minCount", PyVal.pystr "1")] [] = .error (.keyError "maxLength")) :=
  ⟨rfl, rfl⟩

/-- The predicate IRIs read by `JSExecutable.__init__`. -/
def SH_jsFunctionName : String := "sh:jsFunctionName"

/-- The `sh:jsLibrary` predicate IRI. -/
def SH_jsLibrary : String := "sh:jsLibrary"

/-- The `sh:jsLibraryURL` predicate IRI. -/
def SH_jsLibraryURL : String := "sh:jsLibraryURL"

/-- A shapes graph: a finite list of (subject, predicate, object) triples,
in declaration order. -/
structure SG where
  triples : List (RDFNode × String × RDFNode)

/-- `sg.objects(s, p)`: the objects of all triples with the given subject
and predicate, in declaration order. -/
def SG.objects (g : SG) (s : RDFNode) (p : String) : List RDFNode :=
  (g.triples.filter (fun tr => decide (tr.1 = s ∧ tr.2.1 = p))).map (fun tr => tr.2.2)

/-- The immutable result of `JSExecutable.__init__`: the function name
string and the `libraries` dict (library node → URL strings, in insertion
order). -/
structure JSExecutable where
  fn_name : String
  libraries : List (RDFNode × List String)

/-- The mutable state of the library-collection loops: the
`seen_library_defs` list and the `libraries` dict. -/
structure LibState where
  seen : List RDFNode
  libs : List (RDFNode × List String)

/-- The `for u in jsLibraryURLs` loop (lines 62-68 and 82-88): each URL
object must be a literal and its string value is collected in order. -/
def collectURLs : List RDFNode → Except LoadErr (List String)
  | [] => .ok []
  | u :: us =>
      match u with
      | .lit lex _ => (collectURLs us).map (fun rest => lex :: rest)
      | _ => .error .jsLibraryURLNotLiteral

/-- Processing of one library node (shared shape of lines 50-68 and
70-88): skip when already seen, reject literals, collect URL strings, add
to `seen`, and enter the node into `libraries` only when it has at least
one URL. -/
def processLibNode (g : SG) (st : LibState) (libn : RDFNode) : Except LoadErr LibState :=
  if libn ∈ st.seen then .ok st
  else if libn.isLiteral then .error .jsLibraryLiteral
  else
    match collectURLs (g.objects libn SH_jsLibraryURL) with
    | .error e => .error e
    | .ok urls =>
        .ok ⟨st.seen ++ [libn],
             if urls.isEmpty then st.libs else st.libs ++ [(libn, urls)]⟩

/-- The inner `for libn2 in library_defs2` loop (lines 70-88): one level
of nested libraries, with no further recursion. -/
def processNestedList (g : SG) (st : LibState) : List RDFNode → Except LoadErr LibState
  | [] => .ok st
  | l :: ls =>
      match processLibNode g st l with
      | .error e => .error e
      | .ok st2 => processNestedList g st2 ls

/-- The outer `for libn in library_defs` loop (lines 50-88): a direct
library already in `seen_library_defs` is skipped entirely — in
particular its own nested libraries are then never scanned. -/
def processDirectList (g : SG) (st : LibState) : List RDFNode → Except LoadErr LibState
  | [] => .ok st
  | l :: ls =>
      if l ∈ st.seen then processDirectList g st ls
      else
        match processLibNode g st l with
        | .error e => .error e
        | .ok st2 =>
            match processNestedList g st2 (g.objects l SH_jsLibrary) with
            | .error e => .error e
            | .ok st3 => processDirectList g st3 ls

/-- `JSExecutable.__init__` (lines 24-89): `set(...)` of the function-name
objects is modelled by `dedup`; exactly one is required and it must be a
literal; then the library loops run. -/
def JSExecutable_init (g : SG) (node : RDFNode) : Except LoadErr JSExecutable :=
  match (g.objects node SH_jsFunctionName).dedup with
  | [] => .error .fnNameMissing
  | [fn] =>
      match fn with
      | .lit lex _ =>
          match processDirectList g ⟨[], []⟩ (g.objects node SH_jsLibrary) with
          | .error e => .error e
          | .ok st => .ok ⟨lex, st.libs⟩
      | _ => .error .fnNameNotLiteral
  | _ :: _ :: _ => .error .fnNameMultiple

/-- Counterexample for C4: a node with exactly one string-typed
function-name literal whose construction nevertheless raises, because its
`sh:jsLibrary` object is a literal — success additionally requires
well-formed library declarations. -/
theorem JSExecutable_fn_name_counterexample :
    JSExecutable_init
      ⟨[(.iri "N", SH_jsFunctionName, .lit "f" (some "xsd:string")),
        (.iri "N", SH_jsLibrary, .lit "badlib" none)]⟩
      (.iri "N") = .error .jsLibraryLiteral := rfl

/-- Counterexample for C5: the source node `N` declares direct libraries
`A` and `B`; `A` nests `B`, and `B` nests `C` (which has URL `uc`).  `B`
is first visited as a nested library of `A`, so when the direct loop
reaches `B` it is skipped and `B`'s own `sh:jsLibrary` object `C` — a
one-level-indirect library of the source node — is never visited: `C`
is absent from the collected libraries, though the claim says the
libraries of every direct library are collected. -/
theorem JSExecutable_libraries_counterexample :
    JSExecutable_init
      ⟨[(.iri "N", SH_jsFunctionName, .lit "f" none),
        (.iri "N", SH_jsLibrary, .iri "A"),
        (.iri "N", SH_jsLibrary, .iri "B"),
        (.iri "A", SH_jsLibrary, .iri "B"),
        (.iri "B", SH_jsLibrary, .iri "C"),
        (.iri "A", SH_jsLibraryURL, .lit "ua" none),
        (.iri "B", SH_jsLibraryURL, .lit "ub" none),
        (.iri "C", SH_jsLibraryURL, .lit "uc" none)]⟩
      (.iri "N") =
      .ok ⟨"f", [(.iri "A", ["ua"]), (.iri "B", ["ub"])]⟩ := rfl

/-- Spec-side description, following the amended claim's words, of the
visits the nested loop makes: each nested library of a processed direct
library is visited unless already visited. -/
def visitNested (seen : List RDFNode) : List RDFNode → List RDFNode
  | [] => seen
  | y :: ys => visitNested (if y ∈ seen then seen else seen ++ [y]) ys

/-- Spec-side description, following the amended claim's words, of the set
(as an ordered list) of library nodes visited: the direct libraries in
declaration order, each not-yet-visited direct library followed by its
not-yet-visited nested libraries; nothing deeper, and a direct library
already visited is skipped together with its nested scan. -/
def visitDirect (g : SG) (seen : List RDFNode) : List RDFNode → List RDFNode
  | [] => seen
  | l :: ls =>
      if l ∈ seen then visitDirect g seen ls
      else visitDirect g (visitNested (seen ++ [l]) (g.objects l SH_jsLibrary)) ls

/-- The library nodes construction visits for a source node. -/
def visitedLibNodes (g : SG) (node : RDFNode) : List RDFNode :=
  visitDirect g [] (g.objects node SH_jsLibrary)

/-- The libraries dict the amended claim predicts: every visited node with
at least one `sh:jsLibraryURL` object, in visit order, mapped to its URL
values as strings in declaration order. -/
def expectedLibraries (g : SG) (node : RDFNode) : List (RDFNode × List String) :=
  ((visitedLibNodes g node).filter
      (fun x => !(g.objects x SH_jsLibraryURL).isEmpty)).map
    (fun x => (x, (g.objects x SH_jsLibraryURL).map RDFNode.toStr))

/-- Helper: membership in a nested visit. -/
theorem mem_visitNested_iff (x : RDFNode) :
    ∀ (ys seen : List RDFNode), x ∈ visitNested seen ys ↔ x ∈ seen ∨ x ∈ ys := by
  intro ys
  induction ys with
  | nil => intro seen; simp [visitNested]
  | cons y ys ih =>
      intro seen
      rw [visitNested, ih]
      by_cases hy : y ∈ seen
      · rw [if_pos hy]
        constructor
        · rintro (h | h)
          · exact Or.inl h
          · exact Or.inr (List.mem_cons_of_mem y h)
        · rintro (h | h)
          · exact Or.inl h
          · rcases List.mem_cons.mp h with rfl | h2
            · exact Or.inl hy
            · exact Or.inr h2
      · rw [if_neg hy]
        constructor
        · rintro (h | h)
          · rcases List.mem_append.mp h with h1 | h1
            · exact Or.inl h1
            · simp at h1
              subst h1
              exact Or.inr (List.mem_cons_self _ _)
          · exact Or.inr (List.mem_cons_of_mem y h)
        · rintro (h | h)
          · exact Or.inl (List.mem_append_left _ h)
          · rcases List.mem_cons.mp h with rfl | h2
            · exact Or.inl (List.mem_append_right _ (List.mem_singleton.mpr rfl))
            · exact Or.inr h2

/-- Helper: a nested visit keeps the visited list duplicate-free. -/
theorem visitNested_nodup :
    ∀ (ys seen : List RDFNode), seen.Nodup → (visitNested seen ys).Nodup := by
  intro ys
  induction ys with
  | nil => intro seen h; simpa [visitNested] using h
  | cons y ys ih =>
      intro seen h
      rw [visitNested]
      by_cases hy : y ∈ seen
      · rw [if_pos hy]; exact ih seen h
      · rw [if_neg hy]
        refine ih _ (List.Nodup.append h (List.nodup_singleton y) ?_)
        intro a ha hb
        simp at hb
        subst hb
        exact hy ha

/-- Helper: already-visited nodes stay visited through the direct loop. -/
theorem mem_visitDirect_of_mem_seen (g : SG) (x : RDFNode) :
    ∀ (ls seen : List RDFNode), x ∈ seen → x ∈ visitDirect g seen ls := by
  intro ls
  induction ls with
  | nil => intro seen h; simpa [visitDirect] using h
  | cons l ls ih =>
      intro seen h
      rw [visitDirect]
      by_cases hl : l ∈ seen
      · rw [if_pos hl]; exact ih seen h
      · rw [if_neg hl]
        exact ih _ ((mem_visitNested_iff x _ _).mpr (Or.inl (List.mem_append_left _ h)))

/-- Helper: every direct library is visited. -/
theorem mem_visitDirect_of_mem (g : SG) (x : RDFNode) :
    ∀ (ls seen : List RDFNode), x ∈ ls → x ∈ visitDirect g seen ls := by
  intro ls
  induction ls with
  | nil => intro seen h; exact absurd h (List.not_mem_nil x)
  | cons l ls ih =>
      intro seen h
      rw [visitDirect]
      rcases List.mem_cons.mp h with rfl | h2
      · by_cases hl : x ∈ seen
        · rw [if_pos hl]; exact mem_visitDirect_of_mem_seen g x ls seen hl
        · rw [if_neg hl]
          exact mem_visitDirect_of_mem_seen g x ls _
            ((mem_visitNested_iff x _ _).mpr
              (Or.inl (List.mem_append_right _ (List.mem_singleton.mpr rfl))))
      · by_cases hl : l ∈ seen
        · rw [if_pos hl]; exact ih seen h2
        · rw [if_neg hl]; exact ih _ h2

/-- Helper: the direct loop keeps the visited list duplicate-free. -/
theorem visitDirect_nodup (g : SG) :
    ∀ (ls seen : List RDFNode), seen.Nodup → (visitDirect g seen ls).Nodup := by
  intro ls
  induction ls with
  | nil => intro seen h; simpa [visitDirect] using h
  | cons l ls ih =>
      intro seen h
      rw [visitDirect]
      by_cases hl : l ∈ seen
      · rw [if_pos hl]; exact ih seen h
      · rw [if_neg hl]
        refine ih _ (visitNested_nodup _ _ (List.Nodup.append h (List.nodup_singleton l) ?_))
        intro a ha hb
        simp at hb
        subst hb
        exact hl ha

/-- Helper: every visited node is pre-visited, direct, or one level deep. -/
theorem mem_visitDirect_cases (g : SG) (x : RDFNode) :
    ∀ (ls seen : List RDFNode), x ∈ visitDirect g seen ls →
      x ∈ seen ∨ x ∈ ls ∨ ∃ y, y ∈ ls ∧ x ∈ g.objects y SH_jsLibrary := by
  intro ls
  induction ls with
  | nil => intro seen h; rw [visitDirect] at h; exact Or.inl h
  | cons l ls ih =>
      intro seen h
      rw [visitDirect] at h
      by_cases hl : l ∈ seen
      · rw [if_pos hl] at h
        rcases ih seen h with h1 | h1 | ⟨y, hy1, hy2⟩
        · exact Or.inl h1
        · exact Or.inr (Or.inl (List.mem_cons_of_mem l h1))
        · exact Or.inr (Or.inr ⟨y, List.mem_cons_of_mem l hy1, hy2⟩)
      · rw [if_neg hl] at h
        rcases ih _ h with h1 | h1 | ⟨y, hy1, hy2⟩
        · rcases (mem_visitNested_iff x _ _).mp h1 with h2 | h2
          · rcases List.mem_append.mp h2 with h3 | h3
            · exact Or.inl h3
            · simp at h3
              subst h3
              exact Or.inr (Or.inl (List.mem_cons_self _ _))
          · exact Or.inr (Or.inr ⟨l, List.mem_cons_self _ _, h2⟩)
        · exact Or.inr (Or.inl (List.mem_cons_of_mem l h1))
        · exact Or.inr (Or.inr ⟨y, List.mem_cons_of_mem l hy1, hy2⟩)

/-- Helper: when no direct library is nested under another direct library
and the direct list has no duplicates, every nested library of every
direct library is visited. -/
theorem visitDirect_nested_complete (g : SG) :
    ∀ (ls seen : List RDFNode), ls.Nodup → (∀ l ∈ ls, l ∉ seen) →
      (∀ l l2, l ∈ ls → l2 ∈ ls → l ∉ g.objects l2 SH_jsLibrary) →
      ∀ l, l ∈ ls → ∀ y, y ∈ g.objects l SH_jsLibrary →
        y ∈ visitDirect g seen ls := by
  intro ls
  induction ls with
  | nil => intro seen _ _ _ l hl; exact absurd hl (List.not_mem_nil l)
  | cons h0 t ih =>
      intro seen hnd hns hcross l hl y hy
      have hh0 : h0 ∉ seen := hns h0 (List.mem_cons_self _ _)
      rw [visitDirect, if_neg hh0]
      rcases List.mem_cons.mp hl with rfl | hl2
      · exact mem_visitDirect_of_mem_seen g y t _
          ((mem_visitNested_iff y _ _).mpr (Or.inr hy))
      · refine ih _ (List.Nodup.of_cons hnd) ?_
          (fun l1 l2 h1 h2 => hcross l1 l2 (List.mem_cons_of_mem _ h1)
            (List.mem_cons_of_mem _ h2)) l hl2 y hy
        intro l2 hl2t hmem
        rcases (mem_visitNested_iff l2 _ _).mp hmem with hA | hB
        · rcases List.mem_append.mp hA with hA1 | hA2
          · exact hns l2 (List.mem_cons_of_mem _ hl2t) hA1
          · simp at hA2
            subst hA2
            exact (List.nodup_cons.mp hnd).1 hl2t
        · exact hcross l2 h0 (List.mem_cons_of_mem _ hl2t) (List.mem_cons_self _ _) hB

/-- Helper: a successful URL collection is exactly the string values of
the URL objects, all of which are literals. -/
theorem collectURLs_ok_elim :
    ∀ {us : List RDFNode} {ss : List String}, collectURLs us = .ok ss →
      ss = us.map RDFNode.toStr ∧ ∀ u ∈ us, u.isLiteral = true := by
  intro us
  induction us with
  | nil =>
      intro ss h
      rw [collectURLs] at h
      simp only [Except.ok.injEq] at h
      exact ⟨by rw [← h]; rfl, fun u hu => absurd hu (List.not_mem_nil u)⟩
  | cons u us ih =>
      intro ss h
      cases u with
      | iri s => simp [collectURLs] at h
      | bnode s => simp [collectURLs] at h
      | lit lex dt =>
          simp only [collectURLs] at h
          cases hrec : collectURLs us with
          | error e => rw [hrec] at h; simp [Except.map] at h
          | ok ss2 =>
              rw [hrec] at h
              simp only [Except.map, Except.ok.injEq] at h
              obtain ⟨h1, h2⟩ := ih hrec
              refine ⟨by rw [← h, h1]; rfl, ?_⟩
              intro u2 hu2
              rcases List.mem_cons.mp hu2 with rfl | hu3
              · rfl
              · exact h2 u2 hu3

/-- The invariant the library loops maintain: the visited list is
duplicate-free, `libraries` is exactly the visited nodes with at least one
URL object (in visit order, mapped to their URL strings), and every
visited node is a non-literal whose URL collection succeeded. -/
def LibMapInv (g : SG) (st : LibState) : Prop :=
  st.seen.Nodup
  ∧ (st.libs = (st.seen.filter (fun x => !(g.objects x SH_jsLibraryURL).isEmpty)).map
      (fun x => (x, (g.objects x SH_jsLibraryURL).map RDFNode.toStr)))
  ∧ (∀ x, x ∈ st.seen → x.isLiteral = false ∧
      collectURLs (g.objects x SH_jsLibraryURL) =
        .ok ((g.objects x SH_jsLibraryURL).map RDFNode.toStr))

/-- Helper: processing one library node preserves the invariant and
extends the visited list exactly as the spec-side visit does. -/
theorem processLibNode_spec {g : SG} {st : LibState} {libn : RDFNode}
    {st2 : LibState} (hinv : LibMapInv g st)
    (h : processLibNode g st libn = .ok st2) :
    LibMapInv g st2 ∧
      st2.seen = (if libn ∈ st.seen then st.seen else st.seen ++ [libn]) := by
  obtain ⟨hnd, hmap, hfacts⟩ := hinv
  unfold processLibNode at h
  by_cases hseen : libn ∈ st.seen
  · rw [if_pos hseen] at h
    simp only [Except.ok.injEq] at h
    subst h
    exact ⟨⟨hnd, hmap, hfacts⟩, (if_pos hseen).symm⟩
  · rw [if_neg hseen] at h
    by_cases hlit : libn.isLiteral = true
    · rw [if_pos hlit] at h; simp at h
    · rw [if_neg hlit] at h
      cases hurl : collectURLs (g.objects libn SH_jsLibraryURL) with
      | error e => rw [hurl] at h; simp at h
      | ok urls =>
          rw [hurl] at h
          simp only [Except.ok.injEq] at h
          subst h
          obtain ⟨hstr, _hall⟩ := collectURLs_ok_elim hurl
          subst hstr
          refine ⟨⟨?_, ?_, ?_⟩, (if_neg hseen).symm⟩
          · refine List.Nodup.append hnd (List.nodup_singleton _) ?_
            intro a ha hb
            simp at hb
            subst hb
            exact hseen ha
          · rw [List.filter_append, List.map_append, ← hmap]
            cases hobj : g.objects libn SH_jsLibraryURL with
            | nil => simp [hobj, List.filter]
            | cons o os => simp [hobj, List.filter]
          · intro x hx
            rcases List.mem_append.mp hx with hx1 | hx2
            · exact hfacts x hx1
            · simp at hx2
              subst hx2
              exact ⟨by simpa using hlit, hurl⟩

/-- Helper: the nested loop preserves the invariant and visits exactly the
spec-side nested visit. -/
theorem processNestedList_spec {g : SG} :
    ∀ {ys : List RDFNode} {st st2 : LibState}, LibMapInv g st →
      processNestedList g st ys = .ok st2 →
      LibMapInv g st2 ∧ st2.seen = visitNested st.seen ys := by
  intro ys
  induction ys with
  | nil =>
      intro st st2 hinv h
      rw [processNestedList] at h
      simp only [Except.ok.injEq] at h
      subst h
      exact ⟨hinv, rfl⟩
  | cons y ys ih =>
      intro st st2 hinv h
      rw [processNestedList] at h
      cases hn : processLibNode g st y with
      | error e => rw [hn] at h; simp at h
      | ok stm =>
          rw [hn] at h
          obtain ⟨hinv2, hseen2⟩ := processLibNode_spec hinv hn
          obtain ⟨hinv3, hseen3⟩ := ih hinv2 h
          refine ⟨hinv3, ?_⟩
          rw [hseen3, hseen2, visitNested]

/-- Helper: the direct loop preserves the invariant and visits exactly the
spec-side direct visit. -/
theorem processDirectList_spec {g : SG} :
    ∀ {ls : List RDFNode} {st st2 : LibState}, LibMapInv g st →
      processDirectList g st ls = .ok st2 →
      LibMapInv g st2 ∧ st2.seen = visitDirect g st.seen ls := by
  intro ls
  induction ls with
  | nil =>
      intro st st2 hinv h
      rw [processDirectList] at h
      simp only [Except.ok.injEq] at h
      subst h
      exact ⟨hinv, rfl⟩
  | cons l ls ih =>
      intro st st2 hinv h
      rw [processDirectList] at h
      by_cases hl : l ∈ st.seen
      · rw [if_pos hl] at h
        obtain ⟨hinv2, hseen2⟩ := ih hinv h
        refine ⟨hinv2, ?_⟩
        rw [hseen2, visitDirect, if_pos hl]
      · rw [if_neg hl] at h
        cases hn : processLibNode g st l with
        | error e => rw [hn] at h; simp at h
        | ok stm =>
            rw [hn] at h
            replace h : (match processNestedList g stm (g.objects l SH_jsLibrary) with
              | Except.error e => Except.error e
              | Except.ok st3 => processDirectList g st3 ls) = Except.ok st2 := h
            cases hm : processNestedList g stm (g.objects l SH_jsLibrary) with
            | error e => rw [hm] at h; simp at h
            | ok stn =>
                rw [hm] at h
                obtain ⟨hinv1, hseen1⟩ := processLibNode_spec hinv hn
                obtain ⟨hinv2, hseen2⟩ := processNestedList_spec hinv1 hm
                obtain ⟨hinv3, hseen3⟩ := ih hinv2 h
                refine ⟨hinv3, ?_⟩
                rw [hseen3, hseen2, hseen1, if_neg hl, visitDirect, if_neg hl]

/-- Helper: everything a successful construction guarantees: the libraries
dict is exactly the predicted one, and every visited node is a non-literal
whose URL objects are all literals (collected as their strings). -/
theorem JSExecutable_init_ok_spec {g : SG} {node : RDFNode} {exe : JSExecutable}
    (h : JSExecutable_init g node = .ok exe) :
    exe.libraries = expectedLibraries g node
    ∧ (∀ x, x ∈ visitedLibNodes g node → x.isLiteral = false ∧
        collectURLs (g.objects x SH_jsLibraryURL) =
          .ok ((g.objects x SH_jsLibraryURL).map RDFNode.toStr)) := by
  unfold JSExecutable_init at h
  rcases hd : (g.objects node SH_jsFunctionName).dedup with _ | ⟨fn, _ | ⟨fn2, rest⟩⟩
  · rw [hd] at h; simp at h
  · rw [hd] at h
    cases fn with
    | iri s => simp at h
    | bnode s => simp at h
    | lit lex dt =>
        cases hp : processDirectList g ⟨[], []⟩ (g.objects node SH_jsLibrary) with
        | error e => rw [hp] at h; simp at h
        | ok st =>
            rw [hp] at h
            simp only [Except.ok.injEq] at h
            subst h
            have hinv0 : LibMapInv g ⟨[], []⟩ :=
              ⟨List.nodup_nil, rfl, fun x hx => absurd hx (List.not_mem_nil x)⟩
            obtain ⟨⟨_hnd, hmap, hfacts⟩, hseen⟩ := processDirectList_spec hinv0 hp
            constructor
            · show st.libs = expectedLibraries g node
              rw [hmap, hseen]
              rfl
            · intro x hx
              refine hfacts x ?_
              rw [hseen]
              exact hx
  · rw [hd] at h; simp at h

/-- Claim C5 (amended): construction collects exactly the visited library
nodes — the direct libraries and, one level deeper, the libraries of each
direct library processed in the direct loop (a direct library already
visited as an earlier library's nested library is skipped with its nested
scan) — each visited at most once; on success the libraries dict is
exactly the visited nodes with at least one URL, in visit order, mapped to
their URL values as strings in declaration order; every direct library is
visited, every visited node is direct or one level deep, and (when no
direct library is nested under another and the direct list is
duplicate-free) every nested library of every direct library is visited;
construction raises ConstraintLoadError whenever any visited node is a
Literal or any visited node has a non-literal sh:jsLibraryURL value. -/
theorem JSExecutable_libraries_spec (g : SG) (node : RDFNode) :
    (∀ exe, JSExecutable_init g node = .ok exe →
        exe.libraries = expectedLibraries g node)
    ∧ (visitedLibNodes g node).Nodup
    ∧ (∀ x, x ∈ g.objects node SH_jsLibrary → x ∈ visitedLibNodes g node)
    ∧ (∀ x, x ∈ visitedLibNodes g node →
        x ∈ g.objects node SH_jsLibrary ∨
        ∃ y, y ∈ g.objects node SH_jsLibrary ∧ x ∈ g.objects y SH_jsLibrary)
    ∧ ((g.objects node SH_jsLibrary).Nodup →
        (∀ l l2, l ∈ g.objects node SH_jsLibrary → l2 ∈ g.objects node SH_jsLibrary →
          l ∉ g.objects l2 SH_jsLibrary) →
        ∀ l, l ∈ g.objects node SH_jsLibrary →
          ∀ y, y ∈ g.objects l SH_jsLibrary → y ∈ visitedLibNodes g node)
    ∧ (∀ x, x ∈ visitedLibNodes g node → x.isLiteral = true →
        ∃ e, JSExecutable_init g node = .error e)
    ∧ (∀ x u, x ∈ visitedLibNodes g node → u ∈ g.objects x SH_jsLibraryURL →
        u.isLiteral = false → ∃ e, JSExecutable_init g node = .error e) := by
  refine ⟨?_, ?_, ?_, ?_, ?_, ?_, ?_⟩
  · intro exe h
    exact (JSExecutable_init_ok_spec h).1
  · exact visitDirect_nodup g (g.objects node SH_jsLibrary) [] List.nodup_nil
  · intro x hx
    exact mem_visitDirect_of_mem g x (g.objects node SH_jsLibrary) [] hx
  · intro x hx
    rcases mem_visitDirect_cases g x (g.objects node SH_jsLibrary) [] hx with h1 | h1 | h1
    · exact absurd h1 (List.not_mem_nil x)
    · exact Or.inl h1
    · exact Or.inr h1
  · intro hnd hcross l hl y hy
    exact visitDirect_nested_complete g (g.objects node SH_jsLibrary) [] hnd
      (fun l2 _ => List.not_mem_nil l2) hcross l hl y hy
  · intro x hx hlit
    cases hres : JSExecutable_init g node with
    | error e => exact ⟨e, rfl⟩
    | ok exe =>
        have hfalse := ((JSExecutable_init_ok_spec hres).2 x hx).1
        rw [hlit] at hfalse
        simp at hfalse
  · intro x u hx hu hulit
    cases hres : JSExecutable_init g node with
    | error e => exact ⟨e, rfl⟩
    | ok exe =>
        have hurl := ((JSExecutable_init_ok_spec hres).2 x hx).2
        have hall := (collectURLs_ok_elim hurl).2 u hu
        rw [hulit] at hall
        simp at hall

/-- Witness for C5 (amended): a successful construction matches the
predicted dict, the direct library is visited, and a literal direct
library forces a load error. -/
theorem JSExecutable_libraries_spec_witness :
    ((JSExecutable.mk "f" [(RDFNode.iri "A", ["ua"])]).libraries =
      expectedLibraries (SG.mk
        [(.iri "N", SH_jsFunctionName, .lit "f" none),
         (.iri "N", SH_jsLibrary, .iri "A"),
         (.iri "A", SH_jsLibraryURL, .lit "ua" none)]) (.iri "N"))
    ∧ (RDFNode.iri "A" ∈ visitedLibNodes (SG.mk
        [(.iri "N", SH_jsFunctionName, .lit "f" none),
         (.iri "N", SH_jsLibrary, .iri "A"),
         (.iri "A", SH_jsLibraryURL, .lit "ua" none)]) (.iri "N"))
    ∧ (∃ e, JSExecutable_init (SG.mk
        [(.iri "N", SH_jsFunctionName, .lit "f" none),
         (.iri "N", SH_jsLibrary, .lit "L" none)]) (.iri "N") = .error e) := by
  refine ⟨?_, ?_, ?_⟩
  · exact (JSExecutable_libraries_spec _ (.iri "N")).1
      (JSExecutable.mk "f" [(RDFNode.iri "A", ["ua"])]) rfl
  · exact (JSExecutable_libraries_spec _ (.iri "N")).2.2.1 (RDFNode.iri "A") (by decide)
  · exact (JSExecutable_libraries_spec _ (.iri "N")).2.2.2.2.2.1
      (RDFNode.lit "L" none) (by decide) rfl

/-- Claim C4 (amended): zero distinct function-name objects raise
`fnNameMissing`; more than one raise `fnNameMultiple`; exactly one
non-literal raises `fnNameNotLiteral`; exactly one literal succeeds with
`fn_name` its string value — provided the library declarations are
well-formed (a malformed library still fails construction). -/
theorem JSExecutable_fn_name_spec (g : SG) (node : RDFNode) :
    ((g.objects node SH_jsFunctionName) = [] →
      JSExecutable_init g node = .error .fnNameMissing)
    ∧ (1 < (g.objects node SH_jsFunctionName).dedup.length →
      JSExecutable_init g node = .error .fnNameMultiple)
    ∧ (∀ fn, (g.objects node SH_jsFunctionName).dedup = [fn] → fn.isLiteral = false →
      JSExecutable_init g node = .error .fnNameNotLiteral)
    ∧ (∀ lex dt st, (g.objects node SH_jsFunctionName).dedup = [RDFNode.lit lex dt] →
      processDirectList g ⟨[], []⟩ (g.objects node SH_jsLibrary) = .ok st →
      JSExecutable_init g node = .ok ⟨lex, st.libs⟩) := by
  refine ⟨?_, ?_, ?_, ?_⟩
  · intro h0
    unfold JSExecutable_init
    rw [h0]
    rfl
  · intro hlen
    unfold JSExecutable_init
    rcases hd : (g.objects node SH_jsFunctionName).dedup with _ | ⟨a, _ | ⟨b, t⟩⟩
    · rw [hd] at hlen; simp at hlen
    · rw [hd] at hlen; simp at hlen
    · rfl
  · intro fn hd hlit
    unfold JSExecutable_init
    rw [hd]
    cases fn with
    | iri s => rfl
    | bnode s => rfl
    | lit lex dt => simp [RDFNode.isLiteral] at hlit
  · intro lex dt st hd hp
    unfold JSExecutable_init
    rw [hd, hp]

/-- Witness for C4 (amended): the four cases on concrete graphs. -/
theorem JSExecutable_fn_name_spec_witness :
    (JSExecutable_init (SG.mk []) (.iri "N") = .error .fnNameMissing)
    ∧ (JSExecutable_init (SG.mk
        [(.iri "N", SH_jsFunctionName, .lit "a" none),
         (.iri "N", SH_jsFunctionName, .lit "b" none)]) (.iri "N") =
        .error .fnNameMultiple)
    ∧ (JSExecutable_init (SG.mk
        [(.iri "N", SH_jsFunctionName, .iri "x")]) (.iri "N") =
        .error .fnNameNotLiteral)
    ∧ (JSExecutable_init (SG.mk
        [(.iri "N", SH_jsFunctionName, .lit "myFunc" (some "xsd:string"))]) (.iri "N") =
        .ok ⟨"myFunc", ([] : List (RDFNode × List String))⟩) := by
  refine ⟨?_, ?_, ?_, ?_⟩
  · exact (JSExecutable_fn_name_spec (SG.mk []) (.iri "N")).1 rfl
  · exact (JSExecutable_fn_name_spec _ (.iri "N")).2.1 (by decide)
  · exact (JSExecutable_fn_name_spec _ (.iri "N")).2.2.1 (.iri "x") (by decide) rfl
  · exact (JSExecutable_fn_name_spec _ (.iri "N")).2.2.2 "myFunc" (some "xsd:string")
      ⟨[], []⟩ (by decide) rfl
